import Mathlib

/-!
# Verification of the STKI mini search engine (Boolean IR + Vector Space Model)

Shallow embedding of the retrieval core:
* `boolean_ir.py` — inverted-index construction, the Boolean query evaluator
  (regex tokenizer, shunting-yard infix→postfix pass, postfix evaluation over
  document-id sets) and the Boolean precision/recall helper;
* `search_engine.py` — the TF-IDF vector-space builder, the standard/sublinear
  weighting, the cosine ranker and the ranked-evaluation metrics.

Python `dict`s are embedded as association lists (first-match lookup), Python
`set`s as `Finset String`, floating point numbers as exact reals (ℝ) where
logarithms/square roots occur and as rationals (ℚ) elsewhere.  The external
preprocessing collaborator (`preprocess`, which uses NLTK) is a parameter of
the vector-space definitions.  Character classes (`\w`, `str.lower`,
`str.strip`) are modelled over ASCII, the alphabet of all queries and
documents considered here.
-/

namespace STKI

/-- Python `dict.get(k, dflt)` over an association-list embedding of a dict
(a Python dict has at most one entry per key; lookup returns the first). -/
def alookup {α : Type} (l : List (String × α)) (k : String) (dflt : α) : α :=
  match l with
  | [] => dflt
  | p :: rest => if p.1 = k then p.2 else alookup rest k dflt

/-! ## Inverted index (`boolean_ir.build_inverted_index`) -/

/-- An inverted index: term ↦ set of document ids (`{ term : {dok1, ...} }`). -/
abbrev Idx := List (String × Finset String)

/-- `inverted[t].add(doc)` on the association-list embedding of the
`defaultdict(set)`: extend the posting set of `t`, creating the key if absent. -/
def addPosting (idx : Idx) (t doc : String) : Idx :=
  match idx with
  | [] => [(t, {doc})]
  | (k, s) :: rest =>
      if k = t then (k, insert doc s) :: rest else (k, s) :: addPosting rest t doc

/-- `build_inverted_index(docs)`: for each document, each *distinct* token
contributes the document to that token's posting set. -/
def build_inverted_index (docs : List (String × List String)) : Idx :=
  docs.foldl (fun idx p => p.2.dedup.foldl (fun idx t => addPosting idx t p.1) idx) []

/-- `inverted_index.get(tok, set())`. -/
def getIdx (idx : Idx) (t : String) : Finset String :=
  alookup idx t ∅

/-- `set().union(*inverted_index.values())`: the derived universe of documents. -/
def unionValues (idx : Idx) : Finset String :=
  idx.foldr (fun p acc => p.2 ∪ acc) ∅

/-! ## Query tokenizer: `re.findall(r'\bnot\b|\band\b|\bor\b|[\w-]+', q)`

The regex scans left to right; at each position the alternatives are tried in
order (the keyword alternatives need a word boundary on both sides), and on
failure the scanner advances one character.  `prev` holds the character
preceding the current position (`none` at the start of the string), which is
what the left word-boundary test `\b` inspects. -/

/-- `\w` (ASCII): letters, digits, underscore. -/
def isWordChar (c : Char) : Bool := c.isAlphanum || c == '_'

/-- The character class `[\w-]`. -/
def isTokChar (c : Char) : Bool := isWordChar c || c == '-'

/-- Left word boundary `\b` before a word character: start of string or a
preceding non-word character. -/
def boundaryBefore : Option Char → Bool
  | none => true
  | some p => !(isWordChar p)

/-- Right word boundary `\b` after a word character: end of string or a
following non-word character. -/
def boundaryAfter : List Char → Bool
  | [] => true
  | c :: _ => !(isWordChar c)

/-- Try the keyword alternatives `\bnot\b`, `\band\b`, `\bor\b` at the current
position; on success return the matched keyword and the remaining input. -/
def matchOp (prev : Option Char) : List Char → Option (String × List Char)
  | 'n' :: 'o' :: 't' :: rest =>
      if boundaryBefore prev && boundaryAfter rest then some ("not", rest) else none
  | 'a' :: 'n' :: 'd' :: rest =>
      if boundaryBefore prev && boundaryAfter rest then some ("and", rest) else none
  | 'o' :: 'r' :: rest =>
      if boundaryBefore prev && boundaryAfter rest then some ("or", rest) else none
  | _ => none

/-- The scanner for `re.findall(r'\bnot\b|\band\b|\bor\b|[\w-]+', q)`.  `fuel`
only bounds the number of scanning steps; every step consumes at least one
character, so `l.length` fuel (as supplied by `reTokens`) always suffices. -/
def reTokensAux : ℕ → Option Char → List Char → List String
  | 0, _, _ => []
  | _ + 1, _, [] => []
  | fuel + 1, prev, c :: cs =>
    match matchOp prev (c :: cs) with
    | some (op, rest) => op :: reTokensAux fuel (some (op.data.getLastD ' ')) rest
    | none =>
      if isTokChar c then
        String.mk ((c :: cs).takeWhile isTokChar) ::
          reTokensAux fuel (some (((c :: cs).takeWhile isTokChar).getLastD ' '))
            ((c :: cs).dropWhile isTokChar)
      else
        reTokensAux fuel (some c) cs

/-- `re.findall(r'\bnot\b|\band\b|\bor\b|[\w-]+', q)`. -/
def reTokens (prev : Option Char) (l : List Char) : List String :=
  reTokensAux l.length prev l

/-- Python `str.strip()` (over the character list). -/
def pyStrip (l : List Char) : List Char :=
  ((l.dropWhile Char.isWhitespace).reverse.dropWhile Char.isWhitespace).reverse

/-- A character of an index term as it can occur in a Boolean query: fixed by
`str.lower()`, a word character for the tokenizer, and not whitespace. -/
def isTermChar (c : Char) : Prop :=
  c.toLower = c ∧ isWordChar c = true ∧ c.isWhitespace = false

instance (c : Char) : Decidable (isTermChar c) := by
  unfold isTermChar
  infer_instance

/-- `t.upper() if t in ('and', 'or', 'not') else t`. -/
def opUpper (t : String) : String :=
  if t = "and" then "AND" else if t = "or" then "OR" else if t = "not" then "NOT" else t

/-! ## Shunting yard (infix → postfix) and postfix evaluation -/

/-- `prec.get(t, 0)` for `prec = {"NOT": 3, "AND": 2, "OR": 1}`. -/
def precOf (t : String) : Nat :=
  if t = "NOT" then 3 else if t = "AND" then 2 else if t = "OR" then 1 else 0

def isOp (t : String) : Bool := t == "AND" || t == "OR" || t == "NOT"

/-- `while stack and prec.get(stack[-1], 0) >= prec[tok]: output.append(stack.pop())`:
returns the popped operators (in pop order) and the remaining operator stack. -/
def popWhileGE (p : Nat) : List String → List String × List String
  | [] => ([], [])
  | t :: rest =>
      if precOf t ≥ p then
        let (o, s) := popWhileGE p rest
        (t :: o, s)
      else ([], t :: rest)

/-- The infix → postfix loop of `eval_boolean` (head of `st` = top of stack);
the final `while stack: output.append(stack.pop())` flush appends the stack
top-first. -/
def shunt : List String → List String → List String → List String
  | [], out, st => out ++ st
  | tok :: rest, out, st =>
      if isOp tok then
        let (popped, st') := popWhileGE (precOf tok) st
        shunt rest (out ++ popped) (tok :: st')
      else shunt rest (out ++ [tok]) st

/-- One step of the postfix evaluation loop of `eval_boolean` (head of the
list = top of `eval_stack`).  `NOT` on an empty stack first pushes `all_docs`
("operand kiri = semua dokumen") and so pushes `all_docs - all_docs`; `AND`/`OR`
with fewer than two operands are no-ops. -/
def evalStep (allDocs : Finset String) (idx : Idx)
    (stack : List (Finset String)) (tok : String) : List (Finset String) :=
  if tok = "NOT" then
    match stack with
    | [] => [allDocs \ allDocs]
    | A :: rest => (allDocs \ A) :: rest
  else if tok = "AND" then
    match stack with
    | B :: A :: rest => (A ∩ B) :: rest
    | _ => stack
  else if tok = "OR" then
    match stack with
    | B :: A :: rest => (A ∪ B) :: rest
    | _ => stack
  else getIdx idx tok :: stack

/-- `eval_boolean(query, inverted_index)`: normalise and tokenize the query,
convert to postfix, evaluate over document-id sets; result is the stack top,
or `∅` for an empty stack. -/
def eval_boolean (query : String) (idx : Idx) : Finset String :=
  let q := pyStrip (query.data.map Char.toLower)
  let tokens := (reTokens none q).map opUpper
  let output := shunt tokens [] []
  let allDocs := unionValues idx
  let st := output.foldl (evalStep allDocs idx) []
  match st with
  | [] => ∅
  | s :: _ => s

/-! ## Boolean precision / recall (`boolean_ir.precision_recall`) -/

/-- Python `round(x, 2)` on exact values: round half to even at 2 decimals. -/
def pyRound2 (q : ℚ) : ℚ :=
  let y := q * 100
  ((if y - ⌊y⌋ = 1/2 then (if Even ⌊y⌋ then ⌊y⌋ else ⌊y⌋ + 1) else round y : ℤ) : ℚ) / 100

/-- `precision_recall(result, gold)`. -/
def precision_recall (result gold : Finset String) : ℚ × ℚ :=
  if result = ∅ ∧ gold = ∅ then (1, 1)
  else if result = ∅ then (0, 0)
  else
    let tp : ℚ := (result ∩ gold).card
    let precisionv := tp / result.card
    let recallv := if gold ≠ ∅ then tp / gold.card else 0
    (pyRound2 precisionv, pyRound2 recallv)

/-! ## Vector space model (`search_engine.py`)

`preprocess` (NLTK stemming + stopword removal) is an external collaborator;
it appears as the parameter `pre` below. -/

/-- `preprocess(" ".join(text))` applied to a document's token list. -/
def tokensOf (pre : String → List String) (text : List String) : List String :=
  pre (String.intercalate " " text)

/-- `Counter(tokens)` as an association list: distinct keys with counts. -/
def counterOf (l : List String) : List (String × ℕ) :=
  l.dedup.map (fun t => (t, l.count t))

/-- The model returned by `build_vsm`: `{"tf": tf, "df": df, "idf": idf, "docs": docs}`.
`df` and `idf` are the lookup views of the corresponding dicts (`df[t]` defaults
to 0 outside the vocabulary; `idf` is the `idf.get(t, 0)` view: the `idf` dict
has a key exactly for each term with `df(t) ≥ 1`). -/
structure Vsm where
  tf : List (String × List (String × ℕ))
  df : String → ℕ
  idf : String → ℝ
  docs : List (String × List String)

/-- `build_vsm(docs)`: term frequencies per document, document frequencies over
distinct tokens, and smoothed idf `log((N+1)/(df+1)) + 1` with `N = len(docs)`. -/
noncomputable def build_vsm (pre : String → List String)
    (docs : List (String × List String)) : Vsm :=
  let df : String → ℕ := fun t => docs.countP (fun p => t ∈ tokensOf pre p.2)
  let N := docs.length
  { tf := docs.map (fun p => (p.1, counterOf (tokensOf pre p.2)))
    df := df
    idf := fun t =>
      if 0 < df t then Real.log ((N + 1 : ℝ) / (df t + 1 : ℝ)) + 1 else 0
    docs := docs }

/-- `weight_tfidf_standard(vsm)`: `w(t,d) = tf(t,d) * idf.get(t, 0)`. -/
noncomputable def weight_tfidf_standard (vsm : Vsm) :
    List (String × List (String × ℝ)) :=
  vsm.tf.map (fun p => (p.1, p.2.map (fun q => (q.1, (q.2 : ℝ) * vsm.idf q.1))))

/-- `weight_tfidf_sublinear(vsm)`: `w(t,d) = (1 + log tf(t,d)) * idf.get(t, 0)`. -/
noncomputable def weight_tfidf_sublinear (vsm : Vsm) :
    List (String × List (String × ℝ)) :=
  vsm.tf.map (fun p => (p.1, p.2.map (fun q => (q.1, (1 + Real.log (q.2 : ℝ)) * vsm.idf q.1))))

/-- Sum of a list of reals (Python `sum(...)` over a generator). -/
def sumR (l : List ℝ) : ℝ := l.foldr (· + ·) 0

/-- `t in weights` (dict membership). -/
def hasKey {α : Type} (l : List (String × α)) (k : String) : Bool :=
  l.any (fun p => p.1 == k)

/-- The query vector of `rank_vsm`:
`{t: (1 + log f) * idf.get(t, 0) if scheme == "sublinear" else f * idf.get(t, 0)}`
over the query's token counter. -/
noncomputable def qVec (pre : String → List String) (query : String) (vsm : Vsm)
    (scheme : String) : List (String × ℝ) :=
  (counterOf (pre query)).map (fun p =>
    (p.1, if scheme = "sublinear" then (1 + Real.log (p.2 : ℝ)) * vsm.idf p.1
          else (p.2 : ℝ) * vsm.idf p.1))

open Classical in
/-- The score loop of `rank_vsm`: for each `(doc, weights)` of the weight model,
skip it when either norm is 0, compute the cosine score, and keep it only when
the score is strictly positive (appended in iteration order). -/
noncomputable def docScores (pre : String → List String) (query : String)
    (vsm : Vsm) (wm : List (String × List (String × ℝ))) (scheme : String) :
    List (String × ℝ) :=
  let q_vec := qVec pre query vsm scheme
  wm.filterMap (fun dw =>
    let dot := sumR ((q_vec.filter (fun p => hasKey dw.2 p.1)).map
      (fun p => alookup dw.2 p.1 0 * p.2))
    let d_norm := sumR (dw.2.map (fun w => w.2 ^ 2))
    let q_norm := sumR (q_vec.map (fun p => p.2 ^ 2))
    if d_norm = 0 ∨ q_norm = 0 then none
    else
      let score := dot / Real.sqrt (d_norm * q_norm)
      if 0 < score then some (dw.1, score) else none)

open Classical in
/-- The comparator of `doc_scores.sort(key=lambda x: x[1], reverse=True)`:
`a` may precede `b` iff `b`'s score is at most `a`'s. -/
noncomputable def scoreLe (a b : String × ℝ) : Bool := b.2 ≤ a.2

/-- `doc_scores.sort(key=lambda x: x[1], reverse=True)`: stable sort,
descending by score. -/
noncomputable def sortDesc (l : List (String × ℝ)) : List (String × ℝ) :=
  l.mergeSort scoreLe

/-- Python list slicing `l[:k]` for an arbitrary integer `k` (a negative `k`
drops `|k|` elements from the end). -/
def pySlice {α : Type} (l : List α) (k : ℤ) : List α :=
  if 0 ≤ k then l.take k.toNat else l.take (l.length - (-k).toNat)

/-- `rank_vsm(query, vsm, wm, scheme, top_k)`: score, sort descending,
truncate with `doc_scores[:top_k]`. -/
noncomputable def rank_vsm (pre : String → List String) (query : String)
    (vsm : Vsm) (wm : List (String × List (String × ℝ))) (scheme : String)
    (top_k : ℤ) : List (String × ℝ) :=
  pySlice (sortDesc (docScores pre query vsm wm scheme)) top_k

/-! ## Ranked evaluation (`search_engine.evaluate_vsm`) -/

/-- The five scalar metrics returned by `evaluate_vsm` (in tuple order). -/
structure Metrics where
  precision : ℚ
  recallv : ℚ
  f1 : ℚ
  ap : ℚ
  ndcg : ℝ

/-- The MAP accumulation loop: `for i, h in enumerate(hits, 1): if h == 1:
num_hits += 1; ap += num_hits / i`. -/
def apSum : List ℕ → ℕ → ℕ → ℚ
  | [], _, _ => 0
  | h :: rest, i, numhits =>
      if h = 1 then ((numhits + 1 : ℕ) : ℚ) / (i : ℚ) + apSum rest (i + 1) (numhits + 1)
      else apSum rest (i + 1) numhits

/-- `sum(h / log2(i+1) for i, h in enumerate(hits, start=1))`. -/
noncomputable def dcgSum : List ℕ → ℕ → ℝ
  | [], _ => 0
  | h :: rest, i => (h : ℝ) / Real.logb 2 ((i : ℝ) + 1) + dcgSum rest (i + 1)

/-- `sum(1 / log2(i+1) for i in range(1, ideal_hits + 1))`. -/
noncomputable def idcgSum : ℕ → ℝ
  | 0 => 0
  | n + 1 => idcgSum n + 1 / Real.logb 2 ((n + 1 : ℝ) + 1)

open Classical in
/-- Python `round(x, 2)` on the real-valued nDCG. -/
noncomputable def pyRound2R (x : ℝ) : ℝ :=
  let y := x * 100
  ((if y - ⌊y⌋ = 1/2 then (if Even ⌊y⌋ then ⌊y⌋ else ⌊y⌋ + 1) else round y : ℤ) : ℝ) / 100

/-- `evaluate_vsm(results, gold_set, k)`.  The divisions are exact rational /
real divisions; the Python code raises `ZeroDivisionError` for `k = 0`
(`precision = sum(hits)/k`), so the theorems below assume `0 < k`. -/
noncomputable def evaluate_vsm (results : List (String × ℝ)) (gold : Finset String)
    (k : ℤ) : Metrics :=
  let r := (pySlice results k).map Prod.fst
  let hits : List ℕ := r.map (fun doc => if doc ∈ gold then 1 else 0)
  let precision : ℚ := (hits.sum : ℚ) / (k : ℚ)
  let recl : ℚ := if gold ≠ ∅ then (hits.sum : ℚ) / (gold.card : ℚ) else 0
  let f1 : ℚ := if 0 < precision + recl then 2 * precision * recl / (precision + recl) else 0
  let ap : ℚ := if gold ≠ ∅ then apSum hits 1 0 / (gold.card : ℚ) else 0
  let dcg : ℝ := dcgSum hits 1
  let ideal_hits : ℤ := min (gold.card : ℤ) k
  let idcg : ℝ := idcgSum ideal_hits.toNat
  let ndcg : ℝ := if 0 < idcg then dcg / idcg else 0
  ⟨pyRound2 precision, pyRound2 recl, pyRound2 f1, pyRound2 ap, pyRound2R ndcg⟩

/-- The sparse weight lookup `wm[d][t]`: terms absent from a document's weight
dict have implicit weight 0 (never materialized). -/
def wGet (wm : List (String × List (String × ℝ))) (d t : String) : ℝ :=
  alookup (alookup wm d []) t 0

/-- The model's term frequency `tf[d][t]` (0 for absent entries). -/
def tfGet (vsm : Vsm) (d t : String) : ℕ :=
  alookup (alookup vsm.tf d []) t 0

/-! ## Helper lemmas -/

theorem reTokensAux_nil (fuel : ℕ) (prev : Option Char) :
    reTokensAux fuel prev [] = [] := by
  cases fuel <;> rfl

theorem pySlice_zero {α : Type} (l : List α) : pySlice l 0 = [] := by
  simp [pySlice]

theorem getIdx_subset_unionValues (idx : Idx) (t : String) :
    getIdx idx t ⊆ unionValues idx := by
  induction idx with
  | nil =>
    simp [getIdx, alookup, unionValues]
  | cons p rest ih =>
    simp only [getIdx, alookup, unionValues, List.foldr] at *
    by_cases hk : p.1 = t
    · simp only [hk, if_true, if_pos]
      exact Finset.subset_union_left
    · rw [if_neg hk]
      exact ih.trans Finset.subset_union_right

theorem evalStep_preserves_subset {allDocs : Finset String} {idx : Idx}
    (hall : ∀ t, getIdx idx t ⊆ allDocs) (tok : String)
    {stack : List (Finset String)} (hstack : ∀ S ∈ stack, S ⊆ allDocs) :
    ∀ S ∈ evalStep allDocs idx stack tok, S ⊆ allDocs := by
  unfold evalStep
  split_ifs with h1 h2 h3
  · match stack with
    | [] => simp [Finset.sdiff_subset]
    | A :: rest =>
      intro S hS
      rcases List.mem_cons.mp hS with rfl | hS
      · exact Finset.sdiff_subset
      · exact hstack S (List.mem_cons_of_mem _ hS)
  · match stack with
    | [] => exact hstack
    | [A] => exact hstack
    | B :: A :: rest =>
      intro S hS
      rcases List.mem_cons.mp hS with rfl | hS
      · exact Finset.inter_subset_left.trans (hstack A (by simp))
      · exact hstack S (by simp [hS])
  · match stack with
    | [] => exact hstack
    | [A] => exact hstack
    | B :: A :: rest =>
      intro S hS
      rcases List.mem_cons.mp hS with rfl | hS
      · exact Finset.union_subset (hstack A (by simp)) (hstack B (by simp))
      · exact hstack S (by simp [hS])
  · intro S hS
    rcases List.mem_cons.mp hS with rfl | hS
    · exact hall tok
    · exact hstack S hS

theorem foldl_evalStep_subset {allDocs : Finset String} {idx : Idx}
    (hall : ∀ t, getIdx idx t ⊆ allDocs) (toks : List String) :
    ∀ stack : List (Finset String), (∀ S ∈ stack, S ⊆ allDocs) →
      ∀ S ∈ toks.foldl (evalStep allDocs idx) stack, S ⊆ allDocs := by
  induction toks with
  | nil => exact fun stack h => h
  | cons tok rest ih =>
    intro stack hstack
    simp only [List.foldl_cons]
    exact ih _ (evalStep_preserves_subset hall tok hstack)

theorem eval_boolean_NOT_x (idx : Idx) :
    eval_boolean "NOT x" idx = unionValues idx \ getIdx idx "x" := rfl

/-! ## Claims -/

/-- **C1** (code bug).  The claim: for every collection containing an empty
document `e` and every term `t` not occurring in `e`, evaluating `NOT t` over
the index built from the collection returns a set containing `e`.  The code
derives the universe as the union over the inverted-index values, and an empty
document contributes no posting, so it is silently dropped: on the collection
`{e.txt: [], d.txt: [u]}` the query `NOT t` returns `{d.txt}`, which does not
contain `e.txt` — contradicting the code's own docstring ("semua dokumen yang
tidak mengandung kata …") and the truth sets in `boolean_ir.__main__`, which
include every document without the term. -/
theorem C1_empty_document_dropped :
    eval_boolean "NOT t" (build_inverted_index [("e.txt", []), ("d.txt", ["u"])])
        = {"d.txt"} ∧
    "e.txt" ∉ eval_boolean "NOT t" (build_inverted_index [("e.txt", []), ("d.txt", ["u"])]) := by
  constructor
  · decide
  · decide

/-- **C2** (counterexample).  The claim says an empty document collection
passed to index/weight building, and `top_k ≤ 0` passed to the ranker,
surface reportable errors.  In fact all three calls return ordinary defined
values (no error path exists in the code): the empty collection yields an
empty index and an empty weight table, and `top_k = 0` yields the empty
ranking. -/
theorem C2_counterexample :
    build_inverted_index [] = [] ∧
    (build_vsm (fun s => [s]) []).tf = [] ∧
    rank_vsm (fun s => [s]) "q" (build_vsm (fun s => [s]) []) [] "tfidf" 0 = [] := by
  refine ⟨rfl, rfl, ?_⟩
  simp [rank_vsm, docScores, sortDesc, pySlice_zero]

/-- **C2** (amended).  None of the degenerate inputs errors: empty
collections produce empty structures from index and weight-model building,
and the ranker returns the empty list for `top_k = 0`, for every query,
model and weight model. -/
theorem C2_no_errors_on_degenerate_inputs :
    build_inverted_index [] = [] ∧
    (∀ pre : String → List String,
      (build_vsm pre []).tf = [] ∧ (build_vsm pre []).df = fun _ => 0) ∧
    (∀ (pre : String → List String) (query : String) (vsm : Vsm)
        (wm : List (String × List (String × ℝ))) (scheme : String),
      rank_vsm pre query vsm wm scheme 0 = []) := by
  refine ⟨rfl, fun pre => ⟨rfl, funext fun t => rfl⟩, fun pre query vsm wm scheme => ?_⟩
  simp [rank_vsm, pySlice_zero]

/-- **C5**.  The Boolean evaluator is total: the empty query string evaluates
to the empty set over every index, and an `AND`/`OR` reached during postfix
evaluation with fewer than two operands on the value stack leaves the stack
unchanged (so malformed queries produce a defined set instead of raising). -/
theorem C5_evaluator_total :
    (∀ idx : Idx, eval_boolean "" idx = ∅) ∧
    (∀ (allDocs : Finset String) (idx : Idx) (stack : List (Finset String)),
      stack.length < 2 →
        evalStep allDocs idx stack "AND" = stack ∧
        evalStep allDocs idx stack "OR" = stack) := by
  refine ⟨fun idx => rfl, ?_⟩
  rintro allDocs idx (_ | ⟨A, _ | ⟨B, rest⟩⟩) hlen
  · exact ⟨rfl, rfl⟩
  · exact ⟨rfl, rfl⟩
  · simp only [List.length_cons] at hlen
    omega

/-- Witness for **C5** at concrete inputs. -/
theorem C5_witness :
    eval_boolean "" [("x", ({"a.txt"} : Finset String))] = ∅ ∧
    ([({"a.txt"} : Finset String)].length < 2 ∧
      evalStep {"a.txt"} [("x", {"a.txt"})] [{"a.txt"}] "AND" = [{"a.txt"}] ∧
      evalStep {"a.txt"} [("x", {"a.txt"})] [{"a.txt"}] "OR" = [{"a.txt"}]) :=
  ⟨C5_evaluator_total.1 _,
   by decide,
   (C5_evaluator_total.2 {"a.txt"} [("x", {"a.txt"})] [{"a.txt"}] (by decide)).1,
   (C5_evaluator_total.2 {"a.txt"} [("x", {"a.txt"})] [{"a.txt"}] (by decide)).2⟩

/-- **C6**.  `NOT` pops one operand and pushes `universe − operand`; on an
empty value stack the missing operand is implicitly the universe (the code
first pushes `all_docs`), so it pushes `universe − universe`.  Concretely, for
every index whose value sets union to `{a.txt, b.txt}` with
`index["x"] = {a.txt}`, the query `NOT x` returns exactly `{b.txt}`. -/
theorem C6_not_complement_semantics :
    (∀ (allDocs : Finset String) (idx : Idx) (A : Finset String)
        (rest : List (Finset String)),
      evalStep allDocs idx (A :: rest) "NOT" = (allDocs \ A) :: rest) ∧
    (∀ (allDocs : Finset String) (idx : Idx),
      evalStep allDocs idx [] "NOT" = [allDocs \ allDocs]) ∧
    (∀ idx : Idx, unionValues idx = {"a.txt", "b.txt"} → getIdx idx "x" = {"a.txt"} →
      eval_boolean "NOT x" idx = {"b.txt"}) := by
  refine ⟨fun _ _ _ _ => rfl, fun _ _ => rfl, fun idx h1 h2 => ?_⟩
  rw [eval_boolean_NOT_x, h1, h2]
  decide

/-- Witness for **C6** at a concrete index. -/
theorem C6_witness :
    unionValues [("x", ({"a.txt"} : Finset String)), ("y", {"b.txt"})]
        = {"a.txt", "b.txt"} ∧
    getIdx [("x", ({"a.txt"} : Finset String)), ("y", {"b.txt"})] "x" = {"a.txt"} ∧
    eval_boolean "NOT x" [("x", {"a.txt"}), ("y", {"b.txt"})] = {"b.txt"} :=
  ⟨by decide, by decide,
   C6_not_complement_semantics.2.2 [("x", {"a.txt"}), ("y", {"b.txt"})]
     (by decide) (by decide)⟩

/-- **C10** (implicit).  For every query string and every inverted index, the
set returned by the Boolean evaluator is contained in the union of the
index's value sets (the derived universe): no unknown document identifier
ever appears in a result, even for malformed queries. -/
theorem C10_result_subset_derived_universe (query : String) (idx : Idx) :
    eval_boolean query idx ⊆ unionValues idx := by
  have h := foldl_evalStep_subset (getIdx_subset_unionValues idx)
    (shunt ((reTokens none (pyStrip (query.data.map Char.toLower))).map opUpper) [] [])
    [] (by simp)
  simp only [eval_boolean]
  revert h
  generalize List.foldl (evalStep (unionValues idx) idx) []
    (shunt ((reTokens none (pyStrip (query.data.map Char.toLower))).map opUpper) [] []) = st
  intro h
  match st with
  | [] => simp
  | s :: tail => exact h s (by simp)

theorem pyRound2_zero : pyRound2 0 = 0 := by
  norm_num [pyRound2]

theorem pyRound2_eq_round_div (q : ℚ) (h : q * 100 - ⌊q * 100⌋ ≠ 1/2) :
    pyRound2 q = (round (q * 100) : ℚ) / 100 := by
  simp only [pyRound2]
  rw [if_neg h]

theorem pyRound2R_zero : pyRound2R 0 = 0 := by
  norm_num [pyRound2R]

theorem sum_indicator_eq_countP (l : List String) (gold : Finset String) :
    (l.map (fun doc => if doc ∈ gold then (1 : ℕ) else 0)).sum
      = l.countP (fun d => d ∈ gold) := by
  induction l with
  | nil => rfl
  | cons a t ih =>
    simp only [List.map_cons, List.sum_cons, List.countP_cons, ih]
    split_ifs <;> simp_all [Nat.add_comm]

/-- **C7**.  The two empty-gold conventions: the Boolean helper
`precision_recall` returns `(1, 1)` when both the result set and the gold set
are empty, while the ranked evaluator `evaluate_vsm` returns 0 for recall,
MAP and nDCG whenever the gold set is empty. -/
theorem C7_two_empty_gold_conventions :
    precision_recall ∅ ∅ = (1, 1) ∧
    (∀ (results : List (String × ℝ)) (k : ℤ), 0 < k →
      (evaluate_vsm results ∅ k).recallv = 0 ∧
      (evaluate_vsm results ∅ k).ap = 0 ∧
      (evaluate_vsm results ∅ k).ndcg = 0) := by
  refine ⟨by decide, fun results k hk => ?_⟩
  simp only [evaluate_vsm]
  refine ⟨?_, ?_, ?_⟩
  · simp [pyRound2_zero]
  · simp [pyRound2_zero]
  · have h0 : ((0 : ℤ) ⊓ k) = 0 := inf_eq_left.mpr hk.le
    simp [h0, idcgSum, pyRound2R_zero]

/-- Witness for **C7** at concrete inputs. -/
theorem C7_witness :
    precision_recall ∅ ∅ = (1, 1) ∧
    ((0 : ℤ) < 5 ∧
      (evaluate_vsm [("d1", (0 : ℝ))] ∅ 5).recallv = 0 ∧
      (evaluate_vsm [("d1", (0 : ℝ))] ∅ 5).ap = 0 ∧
      (evaluate_vsm [("d1", (0 : ℝ))] ∅ 5).ndcg = 0) :=
  ⟨C7_two_empty_gold_conventions.1, by decide,
   (C7_two_empty_gold_conventions.2 [("d1", (0 : ℝ))] 5 (by decide)).1,
   (C7_two_empty_gold_conventions.2 [("d1", (0 : ℝ))] 5 (by decide)).2.1,
   (C7_two_empty_gold_conventions.2 [("d1", (0 : ℝ))] 5 (by decide)).2.2⟩

/-- **C8**.  `precision@k` divides the number of relevant documents among the
first `k` results by the fixed `k` (not by the number of results actually
returned), and concretely for gold `{d1, d3}` and results `[d1, d2, d3, d4,
d5]` with `k = 5` the evaluator returns precision `0.40`, recall `1.00` and
F1 `0.57` (the 2-place rounding of `4/7 ≈ 0.571`). -/
theorem C8_precision_divides_by_fixed_k :
    (∀ (results : List (String × ℝ)) (gold : Finset String) (k : ℤ), 0 < k →
      (evaluate_vsm results gold k).precision =
        pyRound2 ((((pySlice results k).map Prod.fst).countP (fun d => d ∈ gold) : ℚ)
          / (k : ℚ))) ∧
    ((evaluate_vsm [("d1", (0 : ℝ)), ("d2", 0), ("d3", 0), ("d4", 0), ("d5", 0)]
        {"d1", "d3"} 5).precision = 2/5 ∧
     (evaluate_vsm [("d1", (0 : ℝ)), ("d2", 0), ("d3", 0), ("d4", 0), ("d5", 0)]
        {"d1", "d3"} 5).recallv = 1 ∧
     (evaluate_vsm [("d1", (0 : ℝ)), ("d2", 0), ("d3", 0), ("d4", 0), ("d5", 0)]
        {"d1", "d3"} 5).f1 = 57/100) := by
  constructor
  · intro results gold k hk
    simp only [evaluate_vsm, sum_indicator_eq_countP]
  · refine ⟨?_, ?_, ?_⟩
    · simp only [evaluate_vsm]
      rw [show (List.map (fun doc => if doc ∈ ({"d1", "d3"} : Finset String) then (1:ℕ) else 0)
          (List.map Prod.fst
            (pySlice [("d1", (0 : ℝ)), ("d2", 0), ("d3", 0), ("d4", 0), ("d5", 0)] 5))).sum
          = 2 from rfl]
      norm_num
      rw [pyRound2_eq_round_div _ (by norm_num)]
      norm_num [round_eq]
    · simp only [evaluate_vsm]
      rw [show (List.map (fun doc => if doc ∈ ({"d1", "d3"} : Finset String) then (1:ℕ) else 0)
          (List.map Prod.fst
            (pySlice [("d1", (0 : ℝ)), ("d2", 0), ("d3", 0), ("d4", 0), ("d5", 0)] 5))).sum
          = 2 from rfl,
        show ({"d1", "d3"} : Finset String).card = 2 from by decide,
        if_pos (show ({"d1", "d3"} : Finset String) ≠ ∅ from by decide)]
      norm_num
      rw [pyRound2_eq_round_div _ (by norm_num)]
      norm_num [round_eq]
    · simp only [evaluate_vsm]
      rw [show (List.map (fun doc => if doc ∈ ({"d1", "d3"} : Finset String) then (1:ℕ) else 0)
          (List.map Prod.fst
            (pySlice [("d1", (0 : ℝ)), ("d2", 0), ("d3", 0), ("d4", 0), ("d5", 0)] 5))).sum
          = 2 from rfl,
        show ({"d1", "d3"} : Finset String).card = 2 from by decide,
        if_pos (show ({"d1", "d3"} : Finset String) ≠ ∅ from by decide)]
      norm_num
      rw [pyRound2_eq_round_div _ (by norm_num)]
      norm_num [round_eq]

/-- Witness for **C8** at concrete inputs. -/
theorem C8_witness :
    (0 : ℤ) < 5 ∧
    (evaluate_vsm [("d1", (0 : ℝ)), ("d2", 0), ("d3", 0), ("d4", 0), ("d5", 0)]
        {"d1", "d3"} 5).precision =
      pyRound2 ((((pySlice [("d1", (0 : ℝ)), ("d2", 0), ("d3", 0), ("d4", 0), ("d5", 0)]
        5).map Prod.fst).countP (fun d => d ∈ ({"d1", "d3"} : Finset String)) : ℚ) / (5 : ℚ)) :=
  ⟨by decide,
   C8_precision_divides_by_fixed_k.1
     [("d1", (0 : ℝ)), ("d2", 0), ("d3", 0), ("d4", 0), ("d5", 0)]
     {"d1", "d3"} 5 (by decide)⟩

theorem alookup_map_term (idf : String → ℝ) (terms : List (String × ℕ)) (t : String) :
    alookup (terms.map (fun q => (q.1, (q.2 : ℝ) * idf q.1))) t 0
      = ((alookup terms t 0 : ℕ) : ℝ) * idf t := by
  induction terms with
  | nil => simp [alookup]
  | cons q r ih =>
    by_cases h : q.1 = t
    · simp [alookup, h]
    · simp only [List.map_cons, alookup, if_neg h]
      exact ih

theorem alookup_map_outer (F : List (String × ℕ) → List (String × ℝ)) (hF : F [] = [])
    (l : List (String × List (String × ℕ))) (d : String) :
    alookup (l.map (fun p => (p.1, F p.2))) d [] = F (alookup l d []) := by
  induction l with
  | nil => simp [alookup, hF]
  | cons p r ih =>
    by_cases h : p.1 = d
    · simp [alookup, h]
    · simp only [List.map_cons, alookup, if_neg h]
      exact ih

theorem wGet_standard (vsm : Vsm) (d t : String) :
    wGet (weight_tfidf_standard vsm) d t = (tfGet vsm d t : ℝ) * vsm.idf t := by
  unfold wGet tfGet weight_tfidf_standard
  rw [alookup_map_outer (fun terms => terms.map (fun q => (q.1, (q.2 : ℝ) * vsm.idf q.1)))
    rfl vsm.tf d]
  exact alookup_map_term vsm.idf _ t

/-- **C4**.  Under the standard scheme: the idf of any in-vocabulary term
(`df(t) ≥ 1`) is `log((N+1)/(df(t)+1)) + 1` with `N` the corpus size, the
weight of `t` in `d` is `tf(t,d) * idf(t)`, the idf is strictly positive
whenever `df(t) ≤ N`, and for a term occurring in every one of `N = 4`
documents the idf equals `log(5/5) + 1 = 1` exactly. -/
theorem C4_standard_tfidf (pre : String → List String)
    (docs : List (String × List String)) (d t : String)
    (hdf : 1 ≤ (build_vsm pre docs).df t) :
    (build_vsm pre docs).idf t
        = Real.log ((docs.length + 1 : ℝ) / ((build_vsm pre docs).df t + 1 : ℝ)) + 1 ∧
    wGet (weight_tfidf_standard (build_vsm pre docs)) d t
        = (tfGet (build_vsm pre docs) d t : ℝ) * (build_vsm pre docs).idf t ∧
    ((build_vsm pre docs).df t ≤ docs.length → 0 < (build_vsm pre docs).idf t) ∧
    (docs.length = 4 → (build_vsm pre docs).df t = 4 → (build_vsm pre docs).idf t = 1) := by
  have hidf : (build_vsm pre docs).idf t
      = Real.log ((docs.length + 1 : ℝ) / ((build_vsm pre docs).df t + 1 : ℝ)) + 1 := by
    simp only [build_vsm] at hdf ⊢
    rw [if_pos (by omega)]
  have hpos : (build_vsm pre docs).df t ≤ docs.length → 0 < (build_vsm pre docs).idf t := by
    intro hle
    rw [hidf]
    have hc : (((build_vsm pre docs).df t : ℝ)) ≤ (docs.length : ℝ) := Nat.cast_le.mpr hle
    have h1 : (1 : ℝ) ≤ (docs.length + 1 : ℝ) / ((build_vsm pre docs).df t + 1 : ℝ) := by
      rw [le_div_iff₀ (by positivity)]
      linarith
    linarith [Real.log_nonneg h1]
  refine ⟨hidf, wGet_standard _ d t, hpos, fun hN h4 => ?_⟩
  rw [hidf, hN, h4]
  norm_num

/-- Witness for **C4**: a 4-document corpus in which the term `t` occurs in
every document. -/
theorem C4_witness :
    1 ≤ (build_vsm (fun s => [s])
        [("d1", ["t"]), ("d2", ["t"]), ("d3", ["t"]), ("d4", ["t"])]).df "t" ∧
    ((build_vsm (fun s => [s])
        [("d1", ["t"]), ("d2", ["t"]), ("d3", ["t"]), ("d4", ["t"])]).idf "t"
      = Real.log (([("d1", ["t"]), ("d2", ["t"]), ("d3", ["t"]), ("d4", ["t"])].length + 1 : ℝ)
          / ((build_vsm (fun s => [s])
              [("d1", ["t"]), ("d2", ["t"]), ("d3", ["t"]), ("d4", ["t"])]).df "t" + 1 : ℝ)) + 1 ∧
    wGet (weight_tfidf_standard (build_vsm (fun s => [s])
        [("d1", ["t"]), ("d2", ["t"]), ("d3", ["t"]), ("d4", ["t"])])) "d1" "t"
      = (tfGet (build_vsm (fun s => [s])
            [("d1", ["t"]), ("d2", ["t"]), ("d3", ["t"]), ("d4", ["t"])]) "d1" "t" : ℝ)
          * (build_vsm (fun s => [s])
              [("d1", ["t"]), ("d2", ["t"]), ("d3", ["t"]), ("d4", ["t"])]).idf "t" ∧
    ((build_vsm (fun s => [s])
        [("d1", ["t"]), ("d2", ["t"]), ("d3", ["t"]), ("d4", ["t"])]).df "t"
        ≤ [("d1", ["t"]), ("d2", ["t"]), ("d3", ["t"]), ("d4", ["t"])].length →
      0 < (build_vsm (fun s => [s])
          [("d1", ["t"]), ("d2", ["t"]), ("d3", ["t"]), ("d4", ["t"])]).idf "t") ∧
    ([("d1", ["t"]), ("d2", ["t"]), ("d3", ["t"]), ("d4", ["t"])].length = 4 →
      (build_vsm (fun s => [s])
          [("d1", ["t"]), ("d2", ["t"]), ("d3", ["t"]), ("d4", ["t"])]).df "t" = 4 →
      (build_vsm (fun s => [s])
          [("d1", ["t"]), ("d2", ["t"]), ("d3", ["t"]), ("d4", ["t"])]).idf "t" = 1)) :=
  ⟨by decide, C4_standard_tfidf (fun s => [s])
      [("d1", ["t"]), ("d2", ["t"]), ("d3", ["t"]), ("d4", ["t"])] "d1" "t" (by decide)⟩

theorem scoreLe_iff (a b : String × ℝ) : scoreLe a b = true ↔ b.2 ≤ a.2 := by
  simp [scoreLe]

theorem mem_docScores_pos {pre : String → List String} {query : String} {vsm : Vsm}
    {wm : List (String × List (String × ℝ))} {scheme : String} {p : String × ℝ}
    (hp : p ∈ docScores pre query vsm wm scheme) : 0 < p.2 := by
  simp only [docScores, List.mem_filterMap] at hp
  obtain ⟨a, _, hfa⟩ := hp
  split_ifs at hfa with h1 h2
  cases hfa
  simpa using h2

theorem sortDesc_sorted (l : List (String × ℝ)) :
    (sortDesc l).Sorted (fun a b => b.2 ≤ a.2) := by
  have htrans : ∀ a b c : String × ℝ,
      scoreLe a b = true → scoreLe b c = true → scoreLe a c = true := by
    intro a b c h1 h2
    rw [scoreLe_iff] at *
    exact le_trans h2 h1
  have htotal : ∀ a b : String × ℝ, (scoreLe a b || scoreLe b a) = true := by
    intro a b
    rcases le_total b.2 a.2 with h | h
    · simp [scoreLe_iff, h]
    · simp [scoreLe_iff, h]
  have h := List.sorted_mergeSort htrans htotal l
  exact h.imp (fun hab => (scoreLe_iff _ _).mp hab)

theorem sortDesc_perm (l : List (String × ℝ)) : (sortDesc l).Perm l :=
  List.mergeSort_perm l scoreLe

/-- **C3** (amended: `top_k ≥ 0`; see the counterexample for negative
`top_k`).  For every query, model, weight model, scheme and `top_k ≥ 0`, the
ranked list contains only strictly positive cosine scores, is sorted by score
descending, has at most `top_k` entries, and when fewer than `top_k` documents
score positively every positive-scoring document is returned. -/
theorem C3_rank_filters_sorts_truncates (pre : String → List String) (query : String)
    (vsm : Vsm) (wm : List (String × List (String × ℝ))) (scheme : String)
    (k : ℤ) (hk : 0 ≤ k) :
    (∀ p ∈ rank_vsm pre query vsm wm scheme k, 0 < p.2) ∧
    (rank_vsm pre query vsm wm scheme k).Sorted (fun a b => b.2 ≤ a.2) ∧
    ((rank_vsm pre query vsm wm scheme k).length : ℤ) ≤ k ∧
    (((docScores pre query vsm wm scheme).length : ℤ) < k →
      ∀ p ∈ docScores pre query vsm wm scheme,
        p ∈ rank_vsm pre query vsm wm scheme k) := by
  have hslice : rank_vsm pre query vsm wm scheme k
      = (sortDesc (docScores pre query vsm wm scheme)).take k.toNat := by
    unfold rank_vsm pySlice
    rw [if_pos hk]
  refine ⟨?_, ?_, ?_, ?_⟩
  · intro p hp
    rw [hslice] at hp
    exact mem_docScores_pos
      ((sortDesc_perm (docScores pre query vsm wm scheme)).mem_iff.mp
        (List.take_subset _ _ hp))
  · rw [hslice]
    exact List.Pairwise.sublist (List.take_sublist _ _) (sortDesc_sorted _)
  · rw [hslice]
    have h1 : ((sortDesc (docScores pre query vsm wm scheme)).take k.toNat).length
        ≤ k.toNat := by
      simp [List.length_take]
    omega
  · intro hlt p hp
    have hlen : (sortDesc (docScores pre query vsm wm scheme)).length ≤ k.toNat := by
      have := (sortDesc_perm (docScores pre query vsm wm scheme)).length_eq
      omega
    rw [hslice, List.take_of_length_le hlen]
    exact (sortDesc_perm _).mem_iff.mpr hp

/-- **C3** (counterexample).  The claim quantifies over *every* `top_k`.  For
`top_k = -1` (Python slicing `doc_scores[:-1]` drops the last entry instead of
truncating to at most `top_k`), a two-document weight model in which both
documents score 1 yields a ranked list of length 1, which is not `≤ top_k`. -/
theorem C3_counterexample :
    ¬ (((rank_vsm (fun s => [s]) "t" ⟨[], fun _ => 0, fun _ => 1, []⟩
        [("d1", [("t", 1)]), ("d2", [("t", 1)])] "tfidf" (-1)).length : ℤ) ≤ -1) := by
  have hds : (docScores (fun s => [s]) "t" ⟨[], fun _ => 0, fun _ => 1, []⟩
      [("d1", [("t", 1)]), ("d2", [("t", 1)])] "tfidf").length = 2 := by
    simp only [docScores, qVec, counterOf, List.dedup, List.filterMap, alookup, hasKey, sumR]
    norm_num
  have hlen : (sortDesc (docScores (fun s => [s]) "t" ⟨[], fun _ => 0, fun _ => 1, []⟩
      [("d1", [("t", 1)]), ("d2", [("t", 1)])] "tfidf")).length = 2 := by
    rw [(sortDesc_perm _).length_eq]
    exact hds
  unfold rank_vsm pySlice
  rw [if_neg (by decide)]
  simp only [List.length_take, hlen]
  omega

/-- Witness for **C3** at concrete inputs (`top_k = 5`, empty weight model). -/
theorem C3_witness :
    (0 : ℤ) ≤ 5 ∧
    ((∀ p ∈ rank_vsm (fun s => [s]) "q" ⟨[], fun _ => 0, fun _ => 0, []⟩ [] "tfidf" 5,
        0 < p.2) ∧
      (rank_vsm (fun s => [s]) "q" ⟨[], fun _ => 0, fun _ => 0, []⟩ [] "tfidf" 5).Sorted
        (fun a b => b.2 ≤ a.2) ∧
      ((rank_vsm (fun s => [s]) "q" ⟨[], fun _ => 0, fun _ => 0, []⟩ [] "tfidf" 5).length : ℤ)
          ≤ 5 ∧
      (((docScores (fun s => [s]) "q" ⟨[], fun _ => 0, fun _ => 0, []⟩ [] "tfidf").length : ℤ)
          < 5 →
        ∀ p ∈ docScores (fun s => [s]) "q" ⟨[], fun _ => 0, fun _ => 0, []⟩ [] "tfidf",
          p ∈ rank_vsm (fun s => [s]) "q" ⟨[], fun _ => 0, fun _ => 0, []⟩ [] "tfidf" 5)) :=
  ⟨by decide,
   C3_rank_filters_sorts_truncates (fun s => [s]) "q" ⟨[], fun _ => 0, fun _ => 0, []⟩
     [] "tfidf" 5 (by decide)⟩

/-! ### Tokenizer lemmas for term-operator-term queries -/

theorem matchOp_some_spec {prev : Option Char} {l : List Char} {op : String}
    {rest : List Char} (h : matchOp prev l = some (op, rest)) :
    boundaryBefore prev = true ∧ boundaryAfter rest = true ∧
      ((op = "not" ∧ l = 'n' :: 'o' :: 't' :: rest) ∨
       (op = "and" ∧ l = 'a' :: 'n' :: 'd' :: rest) ∨
       (op = "or" ∧ l = 'o' :: 'r' :: rest)) := by
  unfold matchOp at h
  split at h
  · split_ifs at h with hc
    cases h
    rw [Bool.and_eq_true] at hc
    exact ⟨hc.1, hc.2, Or.inl ⟨rfl, rfl⟩⟩
  · split_ifs at h with hc
    cases h
    rw [Bool.and_eq_true] at hc
    exact ⟨hc.1, hc.2, Or.inr (Or.inl ⟨rfl, rfl⟩)⟩
  · split_ifs at h with hc
    cases h
    rw [Bool.and_eq_true] at hc
    exact ⟨hc.1, hc.2, Or.inr (Or.inr ⟨rfl, rfl⟩)⟩
  · cases h

theorem matchOp_op_word {prev : Option Char} {rest : List Char}
    (hb : boundaryBefore prev = true) (ha : boundaryAfter rest = true) (w : List Char)
    (hw : w = "not".data ∨ w = "and".data ∨ w = "or".data) :
    matchOp prev (w ++ rest) = some (String.mk w, rest) := by
  rcases hw with rfl | rfl | rfl <;>
    simp [show ("not".data : List Char) = ['n', 'o', 't'] from rfl,
      show ("and".data : List Char) = ['a', 'n', 'd'] from rfl,
      show ("or".data : List Char) = ['o', 'r'] from rfl,
      List.cons_append, List.nil_append, matchOp, hb, ha]

theorem no_op_split {w rest opd rest₂ : List Char}
    (hw : ∀ c ∈ w, isWordChar c = true)
    (hr : rest = [] ∨ ∃ r', rest = ' ' :: r')
    (hopd : ∀ c ∈ opd, isWordChar c = true)
    (ha : boundaryAfter rest₂ = true)
    (heq : w ++ rest = opd ++ rest₂) (hne : w ≠ opd) : False := by
  rcases List.append_eq_append_iff.mp heq with ⟨a', h1, h2⟩ | ⟨c', h1, h2⟩
  · cases a' with
    | nil => exact hne (by simpa using h1.symm)
    | cons d t =>
      rcases hr with rfl | ⟨r', rfl⟩
      · simp at h2
      · have hd : ' ' = d := by
          have := congrArg List.head? h2
          simpa using this
        have hdw : isWordChar d = true :=
          hopd d (by rw [h1]; exact List.mem_append_right _ (by simp))
        rw [← hd] at hdw
        exact absurd hdw (by decide)
  · cases c' with
    | nil => exact hne (by simpa using h1)
    | cons d t =>
      have hdw : isWordChar d = true :=
        hw d (by rw [h1]; exact List.mem_append_right _ (by simp))
      rw [h2] at ha
      simp [boundaryAfter, hdw] at ha

theorem matchOp_none_of_term {prev : Option Char} {w rest : List Char}
    (hw : ∀ c ∈ w, isWordChar c = true)
    (hr : rest = [] ∨ ∃ r', rest = ' ' :: r')
    (hnot : w ≠ "not".data) (hand : w ≠ "and".data) (hor : w ≠ "or".data) :
    matchOp prev (w ++ rest) = none := by
  cases hm : matchOp prev (w ++ rest) with
  | none => rfl
  | some pr =>
    exfalso
    obtain ⟨op, rest₂⟩ := pr
    obtain ⟨hb, ha, hspec⟩ := matchOp_some_spec hm
    rcases hspec with ⟨hop, hl⟩ | ⟨hop, hl⟩ | ⟨hop, hl⟩
    · exact no_op_split hw hr (by decide) ha
        (hl.trans (show ('n' :: 'o' :: 't' :: rest₂ : List Char) = "not".data ++ rest₂ from rfl))
        hnot
    · exact no_op_split hw hr (by decide) ha
        (hl.trans (show ('a' :: 'n' :: 'd' :: rest₂ : List Char) = "and".data ++ rest₂ from rfl))
        hand
    · exact no_op_split hw hr (by decide) ha
        (hl.trans (show ('o' :: 'r' :: rest₂ : List Char) = "or".data ++ rest₂ from rfl))
        hor

theorem takeWhile_term_run {w rest : List Char} (hw : ∀ c ∈ w, isTokChar c = true)
    (hr : rest = [] ∨ ∃ r', rest = ' ' :: r') :
    (w ++ rest).takeWhile isTokChar = w ∧ (w ++ rest).dropWhile isTokChar = rest := by
  induction w with
  | nil =>
    rcases hr with rfl | ⟨r', rfl⟩
    · simp
    · simp [List.takeWhile_cons, List.dropWhile_cons,
        show isTokChar ' ' = false from rfl]
  | cons c t ih =>
    have hc := hw c (by simp)
    have iht := ih (fun x hx => hw x (by simp [hx]))
    simp [List.takeWhile_cons, List.dropWhile_cons, hc, iht.1, iht.2]

theorem reTokensAux_word (fuel : ℕ) (prev : Option Char) (w rest : List Char)
    (hb : boundaryBefore prev = true) (hwne : w ≠ [])
    (hw : ∀ c ∈ w, isWordChar c = true)
    (hr : rest = [] ∨ ∃ r', rest = ' ' :: r') :
    reTokensAux (fuel + 1) prev (w ++ rest)
      = String.mk w :: reTokensAux fuel (some (w.getLastD ' ')) rest := by
  have hba : boundaryAfter rest = true := by
    rcases hr with rfl | ⟨r', rfl⟩
    · rfl
    · rfl
  obtain ⟨c, t, rfl⟩ := List.exists_cons_of_ne_nil hwne
  by_cases hop : (c :: t : List Char) = "not".data ∨ (c :: t : List Char) = "and".data ∨
      (c :: t : List Char) = "or".data
  · have hm := matchOp_op_word hb hba (c :: t) hop
    rw [List.cons_append] at hm
    simp only [List.cons_append, reTokensAux, List.append_eq, hm]
  · push_neg at hop
    have hm : matchOp prev ((c :: t) ++ rest) = none :=
      matchOp_none_of_term hw hr hop.1 hop.2.1 hop.2.2
    rw [List.cons_append] at hm
    have htw : ∀ x ∈ (c :: t : List Char), isTokChar x = true := by
      intro x hx
      simp [isTokChar, hw x hx]
    have hrun := takeWhile_term_run htw hr
    rw [List.cons_append] at hrun
    have hc : isTokChar c = true := htw c (by simp)
    simp only [List.cons_append, reTokensAux, List.append_eq, hm, hc, if_true,
      hrun.1, hrun.2]

theorem reTokensAux_space (fuel : ℕ) (prev : Option Char) (r : List Char) :
    reTokensAux (fuel + 1) prev (' ' :: r) = reTokensAux fuel (some ' ') r := by
  have hm : matchOp prev (' ' :: r) = none := rfl
  simp only [reTokensAux, hm, show isTokChar ' ' = false from rfl, Bool.false_eq_true,
    if_false]

theorem reTokensAux_word_end (fuel : ℕ) (prev : Option Char) (w : List Char)
    (hbb : boundaryBefore prev = true) (hwne : w ≠ [])
    (hw : ∀ c ∈ w, isWordChar c = true) :
    reTokensAux (fuel + 1) prev w = [String.mk w] := by
  have h := reTokensAux_word fuel prev w [] hbb hwne hw (Or.inl rfl)
  rw [List.append_nil] at h
  rw [h, reTokensAux_nil]

theorem reTokensAux_term_op_term (f : ℕ) (prev : Option Char) (a w b : List Char)
    (hb0 : boundaryBefore prev = true)
    (hane : a ≠ []) (ha : ∀ c ∈ a, isWordChar c = true)
    (hwne : w ≠ []) (hw : ∀ c ∈ w, isWordChar c = true)
    (hbne : b ≠ []) (hb : ∀ c ∈ b, isWordChar c = true) :
    reTokensAux (f + 5) prev (a ++ ' ' :: (w ++ ' ' :: b))
      = [String.mk a, String.mk w, String.mk b] := by
  rw [show f + 5 = (f + 4) + 1 from rfl]
  rw [reTokensAux_word (f + 4) prev a (' ' :: (w ++ ' ' :: b)) hb0 hane ha (Or.inr ⟨_, rfl⟩)]
  rw [show f + 4 = (f + 3) + 1 from rfl]
  rw [reTokensAux_space (f + 3) (some (a.getLastD ' ')) (w ++ ' ' :: b)]
  rw [show f + 3 = (f + 2) + 1 from rfl]
  rw [reTokensAux_word (f + 2) (some ' ') w (' ' :: b) rfl hwne hw (Or.inr ⟨_, rfl⟩)]
  rw [show f + 2 = (f + 1) + 1 from rfl]
  rw [reTokensAux_space (f + 1) (some (w.getLastD ' ')) b]
  rw [reTokensAux_word_end f (some ' ') b rfl hbne hb]

theorem reTokens_term_op_term (a w b : List Char)
    (hane : a ≠ []) (ha : ∀ c ∈ a, isWordChar c = true)
    (hwne : w ≠ []) (hw : ∀ c ∈ w, isWordChar c = true)
    (hbne : b ≠ []) (hb : ∀ c ∈ b, isWordChar c = true) :
    reTokens none (a ++ ' ' :: (w ++ ' ' :: b))
      = [String.mk a, String.mk w, String.mk b] := by
  unfold reTokens
  have hlen : (a ++ ' ' :: (w ++ ' ' :: b)).length
      = (a.length + w.length + b.length - 3) + 5 := by
    have h1 : 1 ≤ a.length := List.length_pos.mpr hane
    have h2 : 1 ≤ w.length := List.length_pos.mpr hwne
    have h3 : 1 ≤ b.length := List.length_pos.mpr hbne
    simp only [List.length_append, List.length_cons]
    omega
  rw [hlen]
  exact reTokensAux_term_op_term _ none a w b rfl hane ha hwne hw hbne hb

theorem map_toLower_eq_self {a : List Char} (h : ∀ c ∈ a, isTermChar c) :
    a.map Char.toLower = a := by
  induction a with
  | nil => rfl
  | cons c t ih =>
    simp only [List.map_cons, (h c (by simp)).1, ih (fun x hx => h x (by simp [hx]))]

theorem dropWhile_ws_eq_self {l : List Char}
    (h : ∀ c, l.head? = some c → c.isWhitespace = false) :
    l.dropWhile Char.isWhitespace = l := by
  cases l with
  | nil => rfl
  | cons c t =>
    rw [List.dropWhile_cons, h c rfl]
    simp

theorem pyStrip_eq_self {l : List Char}
    (h1 : ∀ c, l.head? = some c → c.isWhitespace = false)
    (h2 : ∀ c, l.getLast? = some c → c.isWhitespace = false) :
    pyStrip l = l := by
  unfold pyStrip
  rw [dropWhile_ws_eq_self h1,
    dropWhile_ws_eq_self (fun c hc => h2 c (by rwa [List.head?_reverse] at hc)),
    List.reverse_reverse]

theorem head_ne_ws_append {a : List Char} (rest : List Char) (hane : a ≠ [])
    (ha : ∀ c ∈ a, isTermChar c) :
    ∀ c, (a ++ rest).head? = some c → c.isWhitespace = false := by
  obtain ⟨c₀, t₀, rfl⟩ := List.exists_cons_of_ne_nil hane
  intro c hc
  rw [List.cons_append, List.head?_cons] at hc
  injection hc with hc
  rw [← hc]
  exact (ha c₀ (by simp)).2.2

theorem last_ne_ws_append (x : List Char) {b : List Char} (hbne : b ≠ [])
    (hb : ∀ c ∈ b, isTermChar c) :
    ∀ c, (x ++ b).getLast? = some c → c.isWhitespace = false := by
  intro c hc
  rw [List.getLast?_append] at hc
  cases hgb : b.getLast? with
  | none =>
    rw [List.getLast?_eq_none_iff] at hgb
    exact absurd hgb hbne
  | some cb =>
    rw [hgb] at hc
    simp only [Option.or_some, Option.some.injEq] at hc
    rw [← hc]
    exact (hb cb (List.mem_of_getLast?_eq_some hgb)).2.2

theorem pyStrip_term_shape (a w b : List Char) (hane : a ≠ [])
    (ha : ∀ c ∈ a, isTermChar c) (hbne : b ≠ []) (hb : ∀ c ∈ b, isTermChar c) :
    pyStrip (a ++ ' ' :: (w ++ ' ' :: b)) = a ++ ' ' :: (w ++ ' ' :: b) := by
  apply pyStrip_eq_self
  · exact head_ne_ws_append _ hane ha
  · have hshape : a ++ ' ' :: (w ++ ' ' :: b) = (a ++ ' ' :: w ++ [' ']) ++ b := by
      simp [List.append_assoc]
    rw [hshape]
    exact last_ne_ws_append _ hbne hb

theorem term_ne_of_upper {a : List Char} (ha : ∀ c ∈ a, isTermChar c) {s : String}
    (c : Char) (hc : c ∈ s.data) (hlc : c.toLower ≠ c) : String.mk a ≠ s := by
  intro he
  have hmem : c ∈ a := by
    rw [show a = s.data from congrArg String.data he]
    exact hc
  exact hlc (ha c hmem).1

theorem isOp_term_false {a : List Char} (ha : ∀ c ∈ a, isTermChar c) :
    isOp (String.mk a) = false := by
  have h1 := term_ne_of_upper ha 'A' (show ('A' : Char) ∈ ("AND" : String).data by decide)
    (by decide)
  have h2 := term_ne_of_upper ha 'O' (show ('O' : Char) ∈ ("OR" : String).data by decide)
    (by decide)
  have h3 := term_ne_of_upper ha 'N' (show ('N' : Char) ∈ ("NOT" : String).data by decide)
    (by decide)
  simp [isOp, h1, h2, h3]

theorem opUpper_term {a : List Char} (hna : a ≠ "not".data ∧ a ≠ "and".data ∧ a ≠ "or".data) :
    opUpper (String.mk a) = String.mk a := by
  have h1 : String.mk a ≠ "and" := fun he => hna.2.1 (congrArg String.data he)
  have h2 : String.mk a ≠ "or" := fun he => hna.2.2 (congrArg String.data he)
  have h3 : String.mk a ≠ "not" := fun he => hna.1 (congrArg String.data he)
  simp [opUpper, h1, h2, h3]

theorem shunt_term_op_term {t₁ t₂ o : String} (h1 : isOp t₁ = false)
    (h2 : isOp t₂ = false) (ho : isOp o = true) :
    shunt [t₁, o, t₂] [] [] = [t₁, t₂, o] := by
  simp [shunt, h1, h2, ho, popWhileGE]

theorem isOp_false_ne {t : String} (h : isOp t = false) :
    t ≠ "NOT" ∧ t ≠ "AND" ∧ t ≠ "OR" := by
  simp only [isOp, Bool.or_eq_false_iff, beq_eq_false_iff_ne, ne_eq] at h
  exact ⟨h.2, h.1.1, h.1.2⟩

theorem foldl_term_term_AND {idx : Idx} {allDocs : Finset String} {t₁ t₂ : String}
    (h1 : isOp t₁ = false) (h2 : isOp t₂ = false) :
    [t₁, t₂, "AND"].foldl (evalStep allDocs idx) []
      = [getIdx idx t₁ ∩ getIdx idx t₂] := by
  obtain ⟨h1n, h1a, h1o⟩ := isOp_false_ne h1
  obtain ⟨h2n, h2a, h2o⟩ := isOp_false_ne h2
  simp [List.foldl, evalStep, h1n, h1a, h1o, h2n, h2a, h2o]

theorem foldl_term_term_OR {idx : Idx} {allDocs : Finset String} {t₁ t₂ : String}
    (h1 : isOp t₁ = false) (h2 : isOp t₂ = false) :
    [t₁, t₂, "OR"].foldl (evalStep allDocs idx) []
      = [getIdx idx t₁ ∪ getIdx idx t₂] := by
  obtain ⟨h1n, h1a, h1o⟩ := isOp_false_ne h1
  obtain ⟨h2n, h2a, h2o⟩ := isOp_false_ne h2
  simp [List.foldl, evalStep, h1n, h1a, h1o, h2n, h2a, h2o]

theorem eval_boolean_AND (idx : Idx) (a b : List Char)
    (hane : a ≠ []) (ha : ∀ c ∈ a, isTermChar c)
    (hna : a ≠ "not".data ∧ a ≠ "and".data ∧ a ≠ "or".data)
    (hbne : b ≠ []) (hb : ∀ c ∈ b, isTermChar c)
    (hnb : b ≠ "not".data ∧ b ≠ "and".data ∧ b ≠ "or".data) :
    eval_boolean (String.mk (a ++ " AND ".data ++ b)) idx
      = getIdx idx (String.mk a) ∩ getIdx idx (String.mk b) := by
  have hlower : (String.mk (a ++ " AND ".data ++ b)).data.map Char.toLower
      = a ++ ' ' :: ("and".data ++ ' ' :: b) := by
    show (a ++ " AND ".data ++ b).map Char.toLower = _
    rw [List.map_append, List.map_append, map_toLower_eq_self ha, map_toLower_eq_self hb,
      show (" AND ".data.map Char.toLower : List Char) = ' ' :: 'a' :: 'n' :: 'd' :: [' ']
        from rfl]
    simp [List.append_assoc]
  have hstrip := pyStrip_term_shape a "and".data b hane ha hbne hb
  have htoks := reTokens_term_op_term a "and".data b hane (fun c hc => (ha c hc).2.1)
    (by decide) (by decide) hbne (fun c hc => (hb c hc).2.1)
  have hmap : ([String.mk a, "and", String.mk b].map opUpper)
      = [String.mk a, "AND", String.mk b] := by
    simp only [List.map_cons, List.map_nil]
    rw [opUpper_term hna, opUpper_term hnb, show opUpper "and" = "AND" from rfl]
  simp only [eval_boolean]
  rw [hlower, hstrip, htoks, hmap,
    shunt_term_op_term (isOp_term_false ha) (isOp_term_false hb)
      (show isOp "AND" = true from rfl),
    foldl_term_term_AND (isOp_term_false ha) (isOp_term_false hb)]

theorem eval_boolean_OR (idx : Idx) (a b : List Char)
    (hane : a ≠ []) (ha : ∀ c ∈ a, isTermChar c)
    (hna : a ≠ "not".data ∧ a ≠ "and".data ∧ a ≠ "or".data)
    (hbne : b ≠ []) (hb : ∀ c ∈ b, isTermChar c)
    (hnb : b ≠ "not".data ∧ b ≠ "and".data ∧ b ≠ "or".data) :
    eval_boolean (String.mk (a ++ " OR ".data ++ b)) idx
      = getIdx idx (String.mk a) ∪ getIdx idx (String.mk b) := by
  have hlower : (String.mk (a ++ " OR ".data ++ b)).data.map Char.toLower
      = a ++ ' ' :: ("or".data ++ ' ' :: b) := by
    show (a ++ " OR ".data ++ b).map Char.toLower = _
    rw [List.map_append, List.map_append, map_toLower_eq_self ha, map_toLower_eq_self hb,
      show (" OR ".data.map Char.toLower : List Char) = ' ' :: 'o' :: 'r' :: [' '] from rfl]
    simp [List.append_assoc]
  have hstrip := pyStrip_term_shape a "or".data b hane ha hbne hb
  have htoks := reTokens_term_op_term a "or".data b hane (fun c hc => (ha c hc).2.1)
    (by decide) (by decide) hbne (fun c hc => (hb c hc).2.1)
  have hmap : ([String.mk a, "or", String.mk b].map opUpper)
      = [String.mk a, "OR", String.mk b] := by
    simp only [List.map_cons, List.map_nil]
    rw [opUpper_term hna, opUpper_term hnb, show opUpper "or" = "OR" from rfl]
  simp only [eval_boolean]
  rw [hlower, hstrip, htoks, hmap,
    shunt_term_op_term (isOp_term_false ha) (isOp_term_false hb)
      (show isOp "OR" = true from rfl),
    foldl_term_term_OR (isOp_term_false ha) (isOp_term_false hb)]

/-- **C9**.  Boolean `AND`/`OR` are commutative as set operations: for every
inverted index and all (lower-case, non-keyword) terms `a` and `b`, evaluating
`a AND b` returns the same document set as `b AND a`, and likewise for `OR`
(both reduce to intersection resp. union of the two posting sets). -/
theorem C9_and_or_commutative (idx : Idx) (a b : List Char)
    (hane : a ≠ []) (ha : ∀ c ∈ a, isTermChar c)
    (hna : a ≠ "not".data ∧ a ≠ "and".data ∧ a ≠ "or".data)
    (hbne : b ≠ []) (hb : ∀ c ∈ b, isTermChar c)
    (hnb : b ≠ "not".data ∧ b ≠ "and".data ∧ b ≠ "or".data) :
    eval_boolean (String.mk (a ++ " AND ".data ++ b)) idx
      = eval_boolean (String.mk (b ++ " AND ".data ++ a)) idx ∧
    eval_boolean (String.mk (a ++ " OR ".data ++ b)) idx
      = eval_boolean (String.mk (b ++ " OR ".data ++ a)) idx := by
  rw [eval_boolean_AND idx a b hane ha hna hbne hb hnb,
    eval_boolean_AND idx b a hbne hb hnb hane ha hna,
    eval_boolean_OR idx a b hane ha hna hbne hb hnb,
    eval_boolean_OR idx b a hbne hb hnb hane ha hna]
  exact ⟨Finset.inter_comm _ _, Finset.union_comm _ _⟩

/-- Witness for **C9**: terms `x`, `y` over a concrete two-term index. -/
theorem C9_witness :
    ((['x'] : List Char) ≠ [] ∧ (∀ c ∈ (['x'] : List Char), isTermChar c) ∧
      (['x'] : List Char) ≠ "not".data ∧ (['x'] : List Char) ≠ "and".data ∧
      (['x'] : List Char) ≠ "or".data ∧
      (['y'] : List Char) ≠ [] ∧ (∀ c ∈ (['y'] : List Char), isTermChar c) ∧
      (['y'] : List Char) ≠ "not".data ∧ (['y'] : List Char) ≠ "and".data ∧
      (['y'] : List Char) ≠ "or".data) ∧
    eval_boolean (String.mk (['x'] ++ " AND ".data ++ ['y']))
        [("x", {"1", "2"}), ("y", {"2", "3"})]
      = eval_boolean (String.mk (['y'] ++ " AND ".data ++ ['x']))
        [("x", {"1", "2"}), ("y", {"2", "3"})] ∧
    eval_boolean (String.mk (['x'] ++ " OR ".data ++ ['y']))
        [("x", {"1", "2"}), ("y", {"2", "3"})]
      = eval_boolean (String.mk (['y'] ++ " OR ".data ++ ['x']))
        [("x", {"1", "2"}), ("y", {"2", "3"})] :=
  ⟨by decide,
   (C9_and_or_commutative [("x", {"1", "2"}), ("y", {"2", "3"})] ['x'] ['y']
     (by decide) (by decide) ⟨by decide, by decide, by decide⟩
     (by decide) (by decide) ⟨by decide, by decide, by decide⟩).1,
   (C9_and_or_commutative [("x", {"1", "2"}), ("y", {"2", "3"})] ['x'] ['y']
     (by decide) (by decide) ⟨by decide, by decide, by decide⟩
     (by decide) (by decide) ⟨by decide, by decide, by decide⟩).2⟩

end STKI
